import Mathlib

/-
  Verification of the integrate-and-fire (I&F) simulation loop from
  "beta versions/Integrate and Fire Model/LIF.ipynb" (I&F CODE, version 2).

  The Python source being embedded (parameters generalized into a record,
  N = 1000 in the notebook):

    I=1; C=1; Vth = 1; Vreset = 0; dt=0.01
    V = np.zeros([1000,1])
    V[0]=0.2
    for k in range(1,999):
        V[k+1] = V[k] + dt*(I/C)
        if V[k+1] > Vth:
            V[k+1] = Vreset

  Real numbers are modelled by the rationals (exact arithmetic).  Python
  runtime failures are modelled with Except: `V[0]=V0` on an empty array
  raises an index error, and `I/C` with `C = 0` raises a division-by-zero
  error at the point in the loop body where the division is evaluated.
  Writes and reads inside the loop are always in bounds (the loop index k
  runs over 1 .. N-2 and touches array indices k and k+1 < N), so
  List.set / List.getD coincide with the numpy array accesses there.

  Note the loop of the notebook starts at k = 1 and writes index k+1, so
  array index 1 is never assigned after the np.zeros initialization.
-/

namespace LIF

/-- The simulator configuration: the loose notebook variables
`I, C, dt, V0, Vth, Vreset` together with the array length `N`
(hard-coded to 1000 in the notebook). -/
structure SimulationConfig where
  I : ℚ
  C : ℚ
  dt : ℚ
  N : ℕ
  V0 : ℚ
  Vth : ℚ
  Vreset : ℚ
  deriving DecidableEq

/-- Python runtime errors that the notebook code can hit. -/
inductive SimError where
  | indexError
  | zeroDivisionError
  deriving DecidableEq

/-- One iteration of the notebook loop body at loop index `k`:
`V[k+1] = V[k] + dt*(I/C)` followed by
`if V[k+1] > Vth: V[k+1] = Vreset`.
Python raises ZeroDivisionError when `C = 0`. -/
def loopStep (cfg : SimulationConfig) (V : List ℚ) (k : ℕ) :
    Except SimError (List ℚ) :=
  if cfg.C = 0 then Except.error SimError.zeroDivisionError
  else
    let V1 := V.set (k + 1) (V.getD k 0 + cfg.dt * (cfg.I / cfg.C))
    if V1.getD (k + 1) 0 > cfg.Vth then
      Except.ok (V1.set (k + 1) cfg.Vreset)
    else
      Except.ok V1

/-- Run the loop body over a list of loop indices, threading the array
state and propagating the first runtime error. -/
def runLoop (cfg : SimulationConfig) : List ℚ → List ℕ → Except SimError (List ℚ)
  | V, [] => Except.ok V
  | V, k :: ks =>
    match loopStep cfg V k with
    | Except.error e => Except.error e
    | Except.ok V1 => runLoop cfg V1 ks

/-- The whole notebook cell: `V = np.zeros([N,1])`, then `V[0] = V0`
(an index error when `N = 0`), then the loop
`for k in range(1, N-1)`, i.e. over loop indices `1, ..., N-2`. -/
def simulate (cfg : SimulationConfig) : Except SimError (List ℚ) :=
  if cfg.N = 0 then Except.error SimError.indexError
  else
    runLoop cfg ((List.replicate cfg.N (0 : ℚ)).set 0 cfg.V0)
      (List.range' 1 (cfg.N - 2))

/-- The net effect of one loop body on the single voltage value it
reads: forward-Euler update followed by the threshold/reset branch. -/
def stepVal (cfg : SimulationConfig) (v : ℚ) : ℚ :=
  let cand := v + cfg.dt * (cfg.I / cfg.C)
  if cand > cfg.Vth then cfg.Vreset else cand

/-- Closed-form recurrence for the voltage stored at each array index by
a successful run: index 0 holds `V0`; index 1 is never written by the
loop (the loop starts at `k = 1` and writes `k+1`) so it keeps its zero
initialization; each later index is one `stepVal` past its predecessor.
Proved below (`simulate_ok_getD`) to agree with `simulate`. -/
def traceAt (cfg : SimulationConfig) : ℕ → ℚ
  | 0 => cfg.V0
  | n + 1 => if n = 0 then 0 else stepVal cfg (traceAt cfg n)

/-- The produced trace, with `[]` standing for a failed run. -/
def traceD (cfg : SimulationConfig) : List ℚ :=
  match simulate cfg with
  | Except.ok tr => tr
  | Except.error _ => []

/-- Whether the run fails with a Python runtime error. -/
def simFails (cfg : SimulationConfig) : Bool :=
  match simulate cfg with
  | Except.ok _ => false
  | Except.error _ => true

/-- The notebook configuration: `I=1, C=1, dt=0.01, N=1000, V0=0.2,
Vth=1, Vreset=0`. -/
def cfgBook : SimulationConfig := ⟨1, 1, 1/100, 1000, 1/5, 1, 0⟩

/-- The notebook parameters at the smallest size exercising the loop
once (`N = 3`). -/
def cfgSmall : SimulationConfig := ⟨1, 1, 1/100, 3, 1/5, 1, 0⟩

/-- Zero input current, two samples. -/
def cfgZeroI : SimulationConfig := ⟨0, 1, 1/100, 2, 1/5, 1, 0⟩

/-- Positive current with a threshold (`Vth = 2`) never reached during
the `N = 3` run. -/
def cfgNoCross : SimulationConfig := ⟨1, 1, 1/100, 3, 1/5, 2, 0⟩

/-- A configuration whose run meets the threshold `Vth = 3/100` exactly
at one step and strictly exceeds it at the next. -/
def cfgBoundary : SimulationConfig := ⟨1, 1, 1/100, 6, 1/5, 3/100, 5⟩

/-- Negative capacitance. -/
def cfgNegC : SimulationConfig := ⟨1, -1, 1/100, 3, 1/5, 1, 0⟩

/-- Zero capacitance with a nonempty loop. -/
def cfgZeroC : SimulationConfig := ⟨1, 0, 1/100, 3, 1/5, 1, 0⟩

/-- Two samples with a nonzero initial voltage `V0 = 7`. -/
def cfgTwo : SimulationConfig := ⟨1, 1, 1/100, 2, 7, 1, 0⟩

lemma getD_set_self {l : List ℚ} {i : ℕ} (h : i < l.length) (a d : ℚ) :
    (l.set i a).getD i d = a := by
  induction l generalizing i with
  | nil => simp at h
  | cons x xs ih =>
    cases i with
    | zero => simp
    | succ n =>
      simp only [List.set, List.getD_cons_succ]
      exact ih (by simpa using h)

lemma getD_set_ne {l : List ℚ} {i j : ℕ} (h : j ≠ i) (a d : ℚ) :
    (l.set i a).getD j d = l.getD j d := by
  induction l generalizing i j with
  | nil => simp
  | cons x xs ih =>
    cases i with
    | zero =>
      cases j with
      | zero => exact absurd rfl h
      | succ m => simp
    | succ n =>
      cases j with
      | zero => simp
      | succ m =>
        simp only [List.set, List.getD_cons_succ]
        have hmn : m ≠ n := by omega
        exact ih hmn

lemma getD_replicate (n i : ℕ) (c : ℚ) : (List.replicate n c).getD i c = c := by
  induction n generalizing i with
  | zero => simp [List.getD]
  | succ m ih =>
    cases i with
    | zero => simp [List.replicate]
    | succ k =>
      simp only [List.replicate, List.getD_cons_succ]
      exact ih k

lemma traceAt_zero (cfg : SimulationConfig) : traceAt cfg 0 = cfg.V0 := rfl

lemma traceAt_one (cfg : SimulationConfig) : traceAt cfg 1 = 0 := rfl

lemma traceAt_succ (cfg : SimulationConfig) {n : ℕ} (hn : 1 ≤ n) :
    traceAt cfg (n + 1) = stepVal cfg (traceAt cfg n) := by
  cases n with
  | zero => omega
  | succ m => simp [traceAt]

lemma loopStep_eq (cfg : SimulationConfig) (hC : cfg.C ≠ 0) (V : List ℚ) (k : ℕ)
    (hk : k + 1 < V.length) :
    loopStep cfg V k = Except.ok (V.set (k + 1) (stepVal cfg (V.getD k 0))) := by
  unfold loopStep stepVal
  rw [if_neg hC]
  simp only
  rw [getD_set_self (by omega : k + 1 < V.length)]
  by_cases h : V.getD k 0 + cfg.dt * (cfg.I / cfg.C) > cfg.Vth
  · rw [if_pos h, if_pos h, List.set_set]
  · rw [if_neg h, if_neg h]

lemma runLoop_spec (cfg : SimulationConfig) (hC : cfg.C ≠ 0) :
    ∀ (m j : ℕ) (V : List ℚ), 1 ≤ j → j + m + 1 ≤ cfg.N →
      V.length = cfg.N →
      (∀ i, i < cfg.N → V.getD i 0 = if i ≤ j then traceAt cfg i else 0) →
      ∃ W, runLoop cfg V (List.range' j m) = Except.ok W ∧
        W.length = cfg.N ∧
        ∀ i, i < cfg.N → W.getD i 0 = if i ≤ j + m then traceAt cfg i else 0 := by
  intro m
  induction m with
  | zero =>
    intro j V hj hjm hlen hV
    exact ⟨V, rfl, hlen, by simpa using hV⟩
  | succ m ih =>
    intro j V hj hjm hlen hV
    have hjN : j < cfg.N := by omega
    have hj1N : j + 1 < cfg.N := by omega
    have hstep : loopStep cfg V j = Except.ok (V.set (j + 1) (stepVal cfg (V.getD j 0))) :=
      loopStep_eq cfg hC V j (by omega)
    have hVj : V.getD j 0 = traceAt cfg j := by
      have h := hV j hjN
      rwa [if_pos (le_refl j)] at h
    have htr : stepVal cfg (V.getD j 0) = traceAt cfg (j + 1) := by
      rw [hVj, ← traceAt_succ cfg hj]
    have hinv : ∀ i, i < cfg.N →
        (V.set (j + 1) (traceAt cfg (j + 1))).getD i 0 =
          if i ≤ j + 1 then traceAt cfg i else 0 := by
      intro i hi
      by_cases hij : i = j + 1
      · subst hij
        rw [getD_set_self (by omega), if_pos (le_refl _)]
      · rw [getD_set_ne hij, hV i hi]
        by_cases h2 : i ≤ j
        · rw [if_pos h2, if_pos (by omega)]
        · rw [if_neg h2, if_neg (by omega)]
    obtain ⟨W, hW, hWlen, hWval⟩ := ih (j + 1) (V.set (j + 1) (traceAt cfg (j + 1)))
      (by omega) (by omega) (by rw [List.length_set]; exact hlen) hinv
    refine ⟨W, ?_, hWlen, fun i hi => ?_⟩
    · rw [List.range'_succ]
      simp only [runLoop, hstep, htr]
      exact hW
    · rw [hWval i hi]
      have harith : j + 1 + m = j + (m + 1) := by omega
      rw [harith]

lemma initState_spec (cfg : SimulationConfig) (hN : 1 ≤ cfg.N) :
    ((List.replicate cfg.N (0 : ℚ)).set 0 cfg.V0).length = cfg.N ∧
    ∀ i, i < cfg.N →
      ((List.replicate cfg.N (0 : ℚ)).set 0 cfg.V0).getD i 0 =
        if i ≤ 1 then traceAt cfg i else 0 := by
  constructor
  · rw [List.length_set, List.length_replicate]
  · intro i hi
    cases i with
    | zero =>
      rw [getD_set_self (by rw [List.length_replicate]; omega), if_pos (by omega)]
      rfl
    | succ n =>
      rw [getD_set_ne (by omega), getD_replicate]
      cases n with
      | zero => rw [if_pos (le_refl 1)]; rfl
      | succ m => rw [if_neg (by omega)]

lemma simulate_spec (cfg : SimulationConfig) (hC : cfg.C ≠ 0) (hN : 1 ≤ cfg.N) :
    ∃ tr, simulate cfg = Except.ok tr ∧ tr.length = cfg.N ∧
      ∀ i, i < cfg.N → tr.getD i 0 = traceAt cfg i := by
  obtain ⟨hlen, hinit⟩ := initState_spec cfg hN
  unfold simulate
  rw [if_neg (by omega : ¬ cfg.N = 0)]
  by_cases h2 : 2 ≤ cfg.N
  · obtain ⟨W, hW, hl, hv⟩ := runLoop_spec cfg hC (cfg.N - 2) 1
      ((List.replicate cfg.N (0 : ℚ)).set 0 cfg.V0) (le_refl 1) (by omega) hlen hinit
    refine ⟨W, hW, hl, fun i hi => ?_⟩
    rw [hv i hi, if_pos (by omega)]
  · have h1 : cfg.N - 2 = 0 := by omega
    rw [h1]
    refine ⟨_, rfl, hlen, fun i hi => ?_⟩
    rw [hinit i hi, if_pos (by omega)]

lemma simulate_small (cfg : SimulationConfig) (hN1 : 1 ≤ cfg.N) (hN2 : cfg.N ≤ 2) :
    ∃ tr, simulate cfg = Except.ok tr ∧ tr.length = cfg.N ∧
      ∀ i, i < cfg.N → tr.getD i 0 = traceAt cfg i := by
  obtain ⟨hlen, hinit⟩ := initState_spec cfg hN1
  unfold simulate
  rw [if_neg (by omega : ¬ cfg.N = 0)]
  have h1 : cfg.N - 2 = 0 := by omega
  rw [h1]
  refine ⟨_, rfl, hlen, fun i hi => ?_⟩
  rw [hinit i hi, if_pos (by omega)]

lemma simulate_error_C0 (cfg : SimulationConfig) (hC : cfg.C = 0) (hN : 3 ≤ cfg.N) :
    simulate cfg = Except.error SimError.zeroDivisionError := by
  unfold simulate
  rw [if_neg (by omega : ¬ cfg.N = 0)]
  have h1 : cfg.N - 2 = (cfg.N - 3) + 1 := by omega
  rw [h1, List.range'_succ]
  simp only [runLoop, loopStep, if_pos hC]

lemma simulate_ok_cases (cfg : SimulationConfig) (tr : List ℚ)
    (h : simulate cfg = Except.ok tr) : 1 ≤ cfg.N ∧ (cfg.C ≠ 0 ∨ cfg.N ≤ 2) := by
  constructor
  · by_contra hN
    have h0 : cfg.N = 0 := by omega
    unfold simulate at h
    rw [if_pos h0] at h
    exact Except.noConfusion h
  · by_contra hcon
    push_neg at hcon
    obtain ⟨hC, hN⟩ := hcon
    rw [simulate_error_C0 cfg hC (by omega)] at h
    exact Except.noConfusion h

lemma simulate_ok_getD (cfg : SimulationConfig) (tr : List ℚ)
    (h : simulate cfg = Except.ok tr) :
    tr.length = cfg.N ∧ ∀ i, i < cfg.N → tr.getD i 0 = traceAt cfg i := by
  obtain ⟨hN, hcase⟩ := simulate_ok_cases cfg tr h
  rcases hcase with hC | h2
  · obtain ⟨tr2, h2, hl, hv⟩ := simulate_spec cfg hC hN
    rw [h2] at h
    injection h with heq
    subst heq
    exact ⟨hl, hv⟩
  · obtain ⟨tr2, hh, hl, hv⟩ := simulate_small cfg hN h2
    rw [hh] at h
    injection h with heq
    subst heq
    exact ⟨hl, hv⟩

lemma simFails_iff (cfg : SimulationConfig) :
    simFails cfg = true ↔ (cfg.N = 0 ∨ (cfg.C = 0 ∧ 3 ≤ cfg.N)) := by
  unfold simFails
  cases hs : simulate cfg with
  | ok tr =>
    obtain ⟨hN, hcase⟩ := simulate_ok_cases cfg tr hs
    simp only [Bool.false_eq_true, false_iff]
    push_neg
    refine ⟨by omega, fun hC => ?_⟩
    rcases hcase with h | h
    · exact absurd hC h
    · omega
  | error e =>
    simp only [true_iff]
    by_contra hcon
    push_neg at hcon
    obtain ⟨hN0, hC⟩ := hcon
    have hN1 : 1 ≤ cfg.N := by omega
    by_cases hCz : cfg.C = 0
    · obtain ⟨tr, htr, _, _⟩ := simulate_small cfg hN1 (by have := hC hCz; omega)
      rw [htr] at hs
      exact Except.noConfusion hs
    · obtain ⟨tr, htr, _, _⟩ := simulate_spec cfg hCz hN1
      rw [htr] at hs
      exact Except.noConfusion hs

lemma simFails_false_of (cfg : SimulationConfig) (hC : cfg.C ≠ 0) (hN : 1 ≤ cfg.N) :
    simFails cfg = false := by
  cases hb : simFails cfg with
  | false => rfl
  | true =>
    exfalso
    rcases (simFails_iff cfg).mp hb with h | ⟨h, _⟩
    · omega
    · exact hC h

lemma simulate_eq_ok_traceD (cfg : SimulationConfig) (h : simFails cfg = false) :
    simulate cfg = Except.ok (traceD cfg) := by
  unfold simFails at h
  unfold traceD
  cases hs : simulate cfg with
  | ok tr => rfl
  | error e => rw [hs] at h; exact Bool.noConfusion h

lemma traceD_getD (cfg : SimulationConfig) (hC : cfg.C ≠ 0) (hN : 1 ≤ cfg.N)
    (i : ℕ) (hi : i < cfg.N) : (traceD cfg).getD i 0 = traceAt cfg i := by
  have hok := simulate_eq_ok_traceD cfg (simFails_false_of cfg hC hN)
  exact (simulate_ok_getD cfg (traceD cfg) hok).2 i hi

lemma traceD_length (cfg : SimulationConfig) (hC : cfg.C ≠ 0) (hN : 1 ≤ cfg.N) :
    (traceD cfg).length = cfg.N := by
  have hok := simulate_eq_ok_traceD cfg (simFails_false_of cfg hC hN)
  exact (simulate_ok_getD cfg (traceD cfg) hok).1

lemma traceAt_cfgBook_linear (k : ℕ) (h1 : 1 ≤ k) (h2 : k ≤ 101) :
    traceAt cfgBook k = ((k : ℚ) - 1) / 100 := by
  induction k with
  | zero => omega
  | succ n ih =>
    cases n with
    | zero => norm_num [traceAt]
    | succ m =>
      rw [traceAt_succ cfgBook (by omega)]
      rw [ih (by omega) (by omega)]
      have hle : ((m : ℚ) + 1) ≤ 100 := by
        have h100 : m + 1 ≤ 100 := by omega
        exact_mod_cast h100
      simp only [stepVal, cfgBook]
      rw [if_neg (by push_cast; linarith)]
      push_cast
      ring

/-- C1: the spec recurrence claims trace[k+1] is determined by trace[k]
for every k from 0 to N-2, with trace[0] = V0.  The code loop instead
starts at k = 1 (`for k in range(1,999)`), so index 1 is never written:
at the notebook parameters with N = 3, the code leaves trace[1] = 0,
while the claimed recurrence at k = 0 demands
trace[1] = V0 + dt*(I/C) = 21/100. -/
theorem C1_code_eval :
    (traceD cfgSmall).getD 0 0 = 1/5 ∧
    (traceD cfgSmall).getD 1 0 = 0 ∧
    (traceD cfgSmall).getD 2 0 = 1/100 ∧
    (traceD cfgSmall).getD 0 0 + cfgSmall.dt * (cfgSmall.I / cfgSmall.C) = 21/100 ∧
    (0 : ℚ) ≠ 21/100 := by
  have hC : cfgSmall.C ≠ 0 := by norm_num [cfgSmall]
  have hN : 1 ≤ cfgSmall.N := by norm_num [cfgSmall]
  have h0 : (traceD cfgSmall).getD 0 0 = 1/5 := by
    rw [traceD_getD cfgSmall hC hN 0 (by norm_num [cfgSmall])]
    norm_num [traceAt, cfgSmall]
  refine ⟨h0, ?_, ?_, ?_, by norm_num⟩
  · rw [traceD_getD cfgSmall hC hN 1 (by norm_num [cfgSmall])]
    norm_num [traceAt]
  · rw [traceD_getD cfgSmall hC hN 2 (by norm_num [cfgSmall])]
    norm_num [traceAt, stepVal, cfgSmall]
  · rw [h0]
    norm_num [cfgSmall]

/-- C2 counterexample: at the notebook configuration
`I=1, C=1, dt=0.01, N=1000, V0=0.2, Vth=1, Vreset=0` the produced trace
has trace[80] = 79/100, not 0, and trace[79] = 78/100, not about 0.99,
refuting the claim as stated. -/
theorem C2_counterexample :
    (traceD cfgBook).getD 80 0 = 79/100 ∧
    (traceD cfgBook).getD 80 0 ≠ 0 ∧
    (traceD cfgBook).getD 79 0 = 78/100 := by
  have hC : cfgBook.C ≠ 0 := by norm_num [cfgBook]
  have hN : 1 ≤ cfgBook.N := by norm_num [cfgBook]
  have h80 : (traceD cfgBook).getD 80 0 = 79/100 := by
    rw [traceD_getD cfgBook hC hN 80 (by norm_num [cfgBook])]
    rw [traceAt_cfgBook_linear 80 (by omega) (by omega)]
    norm_num
  refine ⟨h80, by rw [h80]; norm_num, ?_⟩
  rw [traceD_getD cfgBook hC hN 79 (by norm_num [cfgBook])]
  rw [traceAt_cfgBook_linear 79 (by omega) (by omega)]
  norm_num

/-- C2 amended: at the notebook configuration, in exact arithmetic,
trace[0] = 0.2; trace[1] = 0 (never written); the trace then grows
linearly at 0.01 per index, so trace[79] = 0.78, trace[80] = 0.79 and
trace[101] = 1.0, which is stored without reset because the comparison
is strict; the first reset to 0 occurs at index 102, where the
candidate 1.01 exceeds Vth = 1. -/
theorem C2_amended_values :
    (traceD cfgBook).length = 1000 ∧
    (traceD cfgBook).getD 0 0 = 1/5 ∧
    (traceD cfgBook).getD 1 0 = 0 ∧
    (traceD cfgBook).getD 79 0 = 78/100 ∧
    (traceD cfgBook).getD 80 0 = 79/100 ∧
    (traceD cfgBook).getD 101 0 = 1 ∧
    (traceD cfgBook).getD 102 0 = 0 := by
  have hC : cfgBook.C ≠ 0 := by norm_num [cfgBook]
  have hN : 1 ≤ cfgBook.N := by norm_num [cfgBook]
  have h101 : traceAt cfgBook 101 = 1 := by
    rw [traceAt_cfgBook_linear 101 (by omega) (by omega)]
    norm_num
  refine ⟨?_, ?_, ?_, ?_, ?_, ?_, ?_⟩
  · rw [traceD_length cfgBook hC hN]
    norm_num [cfgBook]
  · rw [traceD_getD cfgBook hC hN 0 (by norm_num [cfgBook])]
    norm_num [traceAt, cfgBook]
  · rw [traceD_getD cfgBook hC hN 1 (by norm_num [cfgBook])]
    norm_num [traceAt]
  · rw [traceD_getD cfgBook hC hN 79 (by norm_num [cfgBook])]
    rw [traceAt_cfgBook_linear 79 (by omega) (by omega)]
    norm_num
  · rw [traceD_getD cfgBook hC hN 80 (by norm_num [cfgBook])]
    rw [traceAt_cfgBook_linear 80 (by omega) (by omega)]
    norm_num
  · rw [traceD_getD cfgBook hC hN 101 (by norm_num [cfgBook])]
    exact h101
  · rw [traceD_getD cfgBook hC hN 102 (by norm_num [cfgBook])]
    rw [show (102 : ℕ) = 101 + 1 from rfl, traceAt_succ cfgBook (by omega), h101]
    norm_num [stepVal, cfgBook]

/-- C3: the claim says that with I = 0 the trace is constant at V0.
The code leaves trace[1] at its zero initialization, so with
I = 0, V0 = 1/5 and N = 2 the trace is [1/5, 0], not [1/5, 1/5]. -/
theorem C3_code_eval :
    cfgZeroI.I = 0 ∧
    cfgZeroI.V0 = 1/5 ∧
    (traceD cfgZeroI).getD 1 0 = 0 ∧
    (0 : ℚ) ≠ 1/5 := by
  have hC : cfgZeroI.C ≠ 0 := by norm_num [cfgZeroI]
  have hN : 1 ≤ cfgZeroI.N := by norm_num [cfgZeroI]
  refine ⟨rfl, rfl, ?_, by norm_num⟩
  rw [traceD_getD cfgZeroI hC hN 1 (by norm_num [cfgZeroI])]
  norm_num [traceAt]

/-- C4: the claim says that with I > 0, C > 0 and no threshold
crossing, trace[k] = V0 + k*dt*(I/C) exactly.  With the notebook
parameters, Vth = 2 (never crossed) and N = 3, the code produces
trace[1] = 0 and trace[2] = 1/100, while the claimed closed form
demands trace[1] = 21/100 and trace[2] = 22/100. -/
theorem C4_code_eval :
    (traceD cfgNoCross).getD 1 0 = 0 ∧
    (traceD cfgNoCross).getD 2 0 = 1/100 ∧
    cfgNoCross.V0 + 1 * cfgNoCross.dt * (cfgNoCross.I / cfgNoCross.C) = 21/100 ∧
    (0 : ℚ) ≠ 21/100 ∧
    (∀ k, 1 ≤ k → k ≤ cfgNoCross.N - 2 →
      traceAt cfgNoCross k + cfgNoCross.dt * (cfgNoCross.I / cfgNoCross.C) ≤ cfgNoCross.Vth) := by
  have hC : cfgNoCross.C ≠ 0 := by norm_num [cfgNoCross]
  have hN : 1 ≤ cfgNoCross.N := by norm_num [cfgNoCross]
  refine ⟨?_, ?_, by norm_num [cfgNoCross], by norm_num, ?_⟩
  · rw [traceD_getD cfgNoCross hC hN 1 (by norm_num [cfgNoCross])]
    norm_num [traceAt]
  · rw [traceD_getD cfgNoCross hC hN 2 (by norm_num [cfgNoCross])]
    norm_num [traceAt, stepVal, cfgNoCross]
  · intro k hk1 hk2
    have hk : k = 1 := by
      have : cfgNoCross.N - 2 = 1 := by norm_num [cfgNoCross]
      omega
    subst hk
    norm_num [traceAt, cfgNoCross]

/-- C5: for every configuration with C > 0 and N ≥ 1 the run succeeds,
the produced trace has length exactly N, and its element at index 0
equals V0. -/
theorem C5_trace_length_and_head (cfg : SimulationConfig)
    (hC : 0 < cfg.C) (hN : 1 ≤ cfg.N) :
    ∃ tr, simulate cfg = Except.ok tr ∧ tr.length = cfg.N ∧ tr.getD 0 0 = cfg.V0 := by
  obtain ⟨tr, h, hl, hv⟩ := simulate_spec cfg (ne_of_gt hC) hN
  refine ⟨tr, h, hl, ?_⟩
  rw [hv 0 (by omega)]
  rfl

/-- C5 witness: the property instantiated at the notebook
configuration. -/
theorem C5_witness :
    (0 : ℚ) < cfgBook.C ∧ 1 ≤ cfgBook.N ∧
    ∃ tr, simulate cfgBook = Except.ok tr ∧ tr.length = cfgBook.N ∧
      tr.getD 0 0 = cfgBook.V0 :=
  ⟨by norm_num [cfgBook], by norm_num [cfgBook],
    C5_trace_length_and_head cfgBook (by norm_num [cfgBook]) (by norm_num [cfgBook])⟩

/-- C6: the reset comparison is strict.  For every successful run and
every loop index k (1 ≤ k ≤ N-2), if the candidate
trace[k] + dt*(I/C) equals Vth exactly it is stored unchanged at index
k+1, and if it strictly exceeds Vth then index k+1 holds Vreset. -/
theorem C6_strict_threshold (cfg : SimulationConfig) (tr : List ℚ)
    (h : simulate cfg = Except.ok tr) (k : ℕ) (hk1 : 1 ≤ k) (hk2 : k ≤ cfg.N - 2) :
    (tr.getD k 0 + cfg.dt * (cfg.I / cfg.C) = cfg.Vth →
      tr.getD (k + 1) 0 = tr.getD k 0 + cfg.dt * (cfg.I / cfg.C)) ∧
    (tr.getD k 0 + cfg.dt * (cfg.I / cfg.C) > cfg.Vth →
      tr.getD (k + 1) 0 = cfg.Vreset) := by
  obtain ⟨hN, hcase⟩ := simulate_ok_cases cfg tr h
  have hN3 : 3 ≤ cfg.N := by omega
  obtain ⟨hl, hv⟩ := simulate_ok_getD cfg tr h
  have hkN : k < cfg.N := by omega
  have hk1N : k + 1 < cfg.N := by omega
  rw [hv k hkN, hv (k + 1) hk1N, traceAt_succ cfg hk1]
  unfold stepVal
  simp only
  constructor
  · intro heq
    rw [if_neg (by rw [heq]; exact lt_irrefl _)]
  · intro hgt
    rw [if_pos hgt]

/-- C6 witness: at `cfgBoundary` the candidate at loop index 3 equals
Vth = 3/100 exactly and is stored unchanged, while the candidate at
loop index 4 strictly exceeds Vth and index 5 is reset to Vreset = 5. -/
theorem C6_witness :
    (traceD cfgBoundary).getD 3 0 + cfgBoundary.dt * (cfgBoundary.I / cfgBoundary.C) =
      cfgBoundary.Vth ∧
    (traceD cfgBoundary).getD 4 0 =
      (traceD cfgBoundary).getD 3 0 + cfgBoundary.dt * (cfgBoundary.I / cfgBoundary.C) ∧
    (traceD cfgBoundary).getD 4 0 + cfgBoundary.dt * (cfgBoundary.I / cfgBoundary.C) >
      cfgBoundary.Vth ∧
    (traceD cfgBoundary).getD 5 0 = cfgBoundary.Vreset := by
  have hC : cfgBoundary.C ≠ 0 := by norm_num [cfgBoundary]
  have hN : 1 ≤ cfgBoundary.N := by norm_num [cfgBoundary]
  have hok : simulate cfgBoundary = Except.ok (traceD cfgBoundary) :=
    simulate_eq_ok_traceD cfgBoundary (simFails_false_of cfgBoundary hC hN)
  have h3 : (traceD cfgBoundary).getD 3 0 = 1/50 := by
    rw [traceD_getD cfgBoundary hC hN 3 (by norm_num [cfgBoundary])]
    norm_num [traceAt, stepVal, cfgBoundary]
  have h4eq : (traceD cfgBoundary).getD 3 0 +
      cfgBoundary.dt * (cfgBoundary.I / cfgBoundary.C) = cfgBoundary.Vth := by
    rw [h3]
    norm_num [cfgBoundary]
  have h4 : (traceD cfgBoundary).getD 4 0 = 3/100 := by
    rw [traceD_getD cfgBoundary hC hN 4 (by norm_num [cfgBoundary])]
    norm_num [traceAt, stepVal, cfgBoundary]
  have h5gt : (traceD cfgBoundary).getD 4 0 +
      cfgBoundary.dt * (cfgBoundary.I / cfgBoundary.C) > cfgBoundary.Vth := by
    rw [h4]
    norm_num [cfgBoundary]
  have heq := C6_strict_threshold cfgBoundary (traceD cfgBoundary) hok 3
    (by norm_num) (by norm_num [cfgBoundary])
  have hst := C6_strict_threshold cfgBoundary (traceD cfgBoundary) hok 4
    (by norm_num) (by norm_num [cfgBoundary])
  exact ⟨h4eq, heq.1 h4eq, h5gt, hst.2 h5gt⟩

/-- C7 counterexample: with C = -1 (so C ≤ 0) and N = 3 the claim
demands an InvalidConfig failure before simulation, but the code
simulates without error: the run succeeds and trace[2] = -1/100. -/
theorem C7_counterexample :
    cfgNegC.C < 0 ∧
    simFails cfgNegC = false ∧
    (traceD cfgNegC).getD 2 0 = -(1/100) := by
  have hC : cfgNegC.C ≠ 0 := by norm_num [cfgNegC]
  have hN : 1 ≤ cfgNegC.N := by norm_num [cfgNegC]
  refine ⟨by norm_num [cfgNegC], simFails_false_of cfgNegC hC hN, ?_⟩
  rw [traceD_getD cfgNegC hC hN 2 (by norm_num [cfgNegC])]
  norm_num [traceAt, stepVal, cfgNegC]

/-- C7 amended: the code performs no configuration validation and has
no InvalidConfig error; a run fails (with a Python runtime error) if
and only if N = 0 (index error at `V[0] = V0`) or C = 0 together with
N ≥ 3 (division by zero inside the first executed loop body).  Every
other configuration, including C < 0, is simulated without error. -/
theorem C7_failure_iff (cfg : SimulationConfig) :
    simFails cfg = true ↔ (cfg.N = 0 ∨ (cfg.C = 0 ∧ 3 ≤ cfg.N)) :=
  simFails_iff cfg

/-- C7 witness: with C = 0 and N = 3 the run does fail. -/
theorem C7_witness : simFails cfgZeroC = true :=
  (C7_failure_iff cfgZeroC).mpr (Or.inr ⟨rfl, by norm_num [cfgZeroC]⟩)

/-- C8: the simulation is deterministic: identical configurations
produce identical results. -/
theorem C8_deterministic (c1 c2 : SimulationConfig) (h : c1 = c2) :
    simulate c1 = simulate c2 := by
  rw [h]

/-- C8 witness: determinism instantiated at the notebook
configuration. -/
theorem C8_witness : simulate cfgBook = simulate cfgBook :=
  C8_deterministic cfgBook cfgBook rfl

/-- C9: the loop writes only indices 2 .. N-1, so after a successful
run with N ≥ 2, index 0 still holds V0 and index 1 still holds its
zero-initialized value 0, for every configuration (whatever V0, I, C
and dt are). -/
theorem C9_index_one_untouched (cfg : SimulationConfig) (tr : List ℚ)
    (h : simulate cfg = Except.ok tr) (hN : 2 ≤ cfg.N) :
    tr.getD 0 0 = cfg.V0 ∧ tr.getD 1 0 = 0 := by
  obtain ⟨hl, hv⟩ := simulate_ok_getD cfg tr h
  constructor
  · rw [hv 0 (by omega)]
    rfl
  · rw [hv 1 (by omega)]
    rfl

/-- C9 witness: with V0 = 7 and N = 2 the produced trace still has 0
at index 1. -/
theorem C9_witness :
    simulate cfgTwo = Except.ok (traceD cfgTwo) ∧
    (traceD cfgTwo).getD 0 0 = 7 ∧
    (traceD cfgTwo).getD 1 0 = 0 := by
  have hok : simulate cfgTwo = Except.ok (traceD cfgTwo) :=
    simulate_eq_ok_traceD cfgTwo
      (simFails_false_of cfgTwo (by norm_num [cfgTwo]) (by norm_num [cfgTwo]))
  have h := C9_index_one_untouched cfgTwo (traceD cfgTwo) hok (by norm_num [cfgTwo])
  refine ⟨hok, ?_, h.2⟩
  rw [h.1]
  norm_num [cfgTwo]

/-- C10: every trace element written by the loop body is bounded above
by max(Vth, Vreset): for every successful run and every index k with
2 ≤ k ≤ N-1, trace[k] ≤ max(Vth, Vreset), because each stored value is
either a candidate that did not exceed Vth or Vreset itself. -/
theorem C10_loop_values_bounded (cfg : SimulationConfig) (tr : List ℚ)
    (h : simulate cfg = Except.ok tr) (k : ℕ) (hk2 : 2 ≤ k) (hkN : k < cfg.N) :
    tr.getD k 0 ≤ max cfg.Vth cfg.Vreset := by
  obtain ⟨hl, hv⟩ := simulate_ok_getD cfg tr h
  rw [hv k hkN]
  obtain ⟨m, rfl⟩ : ∃ m, k = m + 1 := ⟨k - 1, by omega⟩
  rw [traceAt_succ cfg (by omega)]
  unfold stepVal
  simp only
  by_cases hgt : traceAt cfg m + cfg.dt * (cfg.I / cfg.C) > cfg.Vth
  · rw [if_pos hgt]
    exact le_max_right _ _
  · rw [if_neg hgt]
    exact le_trans (not_lt.mp hgt) (le_max_left _ _)

/-- C10 witness: the bound instantiated at the notebook parameters with
N = 3 and k = 2. -/
theorem C10_witness :
    (traceD cfgSmall).getD 2 0 ≤ max cfgSmall.Vth cfgSmall.Vreset :=
  C10_loop_values_bounded cfgSmall (traceD cfgSmall)
    (simulate_eq_ok_traceD cfgSmall
      (simFails_false_of cfgSmall (by norm_num [cfgSmall]) (by norm_num [cfgSmall])))
    2 (by norm_num) (by norm_num [cfgSmall])

end LIF
